import Mathlib

/-!
Verification of the iso9660 image writer (Go) against its natural-language
specification.  The Go sources are shallowly embedded: bytes are `Nat`
(values < 256 in well-formed data), byte slices are `List Nat`, machine
integer wrap-around is written with explicit `% 2^w`, and Go maps over
mangled (ASCII) identifiers are modelled as association lists keyed by
`String` (for ASCII keys Go's byte-wise `len`/ordering and Lean's
char-wise ones coincide).
-/

set_option maxRecDepth 100000

namespace Iso9660

/-- Modelled from the spec: the constant `sectorSize` (2048 bytes per logical
sector, spec §3) is declared in a source file that is not part of the
provided sources. -/
def sectorSize : Nat := 2048

/-- Bound of `uint16` arithmetic. -/
def U16 : Nat := 65536

/-- Bound of `uint32` arithmetic. -/
def U32 : Nat := 4294967296

/-- A run of `n` zero bytes (`make([]byte, n)`). -/
def zeros (n : Nat) : List Nat := List.replicate n 0

/-- Little-endian bytes of a `uint16` value (`binary.LittleEndian.PutUint16`). -/
def le16 (v : Nat) : List Nat := [v % 256, v / 256 % 256]

/-- Little-endian bytes of a `uint32` value (`binary.LittleEndian.PutUint32`). -/
def le32 (v : Nat) : List Nat := [v % 256, v / 256 % 256, v / 65536 % 256, v / 16777216 % 256]

/-- Sum of the 16-bit little-endian words of a byte slice, read pairwise
(the `i += 2` traversal shared by `doBootCatalogChecksum`); a trailing odd
byte contributes nothing (all slices checksummed by the source have even
length). -/
def sumWordsLE : List Nat → Nat
  | b0 :: b1 :: rest => (b0 + 256 * b1) + sumWordsLE rest
  | _ => 0

/-- The loop of `doBootCatalogChecksum` (bootcatalog.go lines 91..101):
`var v uint16; for i := 0; i < len(b); i += 2 { v -= LittleEndian.Uint16(b[i:i+2]) }`.
`uint16` subtraction is wrap-around, written with explicit `% U16`. -/
def checksumLoop : List Nat → Nat → Nat
  | b0 :: b1 :: rest, v => checksumLoop rest ((v + (U16 - (b0 + 256 * b1) % U16)) % U16)
  | _, v => v

/-- `doBootCatalogChecksum` (bootcatalog.go lines 91..101): the final `v` is
serialised little-endian into two bytes. -/
def doBootCatalogChecksum (b : List Nat) : List Nat :=
  let v := checksumLoop b 0
  [v % 256, v / 256 % 256]

/-- One El Torito boot catalog entry as consumed by `encodeBootCatalogs`:
the platform byte, the boot-media byte, and the two facts about the boot
file the encoder reads (`b.file.Size()` and `b.file.meta().targetSector`). -/
structure BootCatalogEntry where
  platform : Nat
  bootMedia : Nat
  fileSize : Nat
  targetSector : Nat

/-- The 32-byte Validation Entry built for the first catalog entry
(bootcatalog.go lines 38..50): header, 24-byte manufacturer field, 2-byte
checksum placeholder, `0x55 0xaa`; then the checksum of those 32 bytes is
computed and copied over offsets 28..30. -/
def validationEntry (platform : Nat) : List Nat :=
  let pre := [1, platform, 0, 0] ++ zeros 24 ++ [0, 0] ++ [0x55, 0xaa]
  pre.take 28 ++ doBootCatalogChecksum pre ++ pre.drop 30

/-- The 32-byte Section Header Entry built for catalog entries with index
`i ≥ 1` (bootcatalog.go lines 52..58); the last entry uses indicator `0x91`,
all others `0x90`. -/
def sectionHeaderEntry (isLast : Bool) (platform : Nat) : List Nat :=
  [if isLast then 0x91 else 0x90, platform, 1, 0] ++ zeros 28

/-- The `sector count` field of an Initial/Default or Section Entry
(bootcatalog.go lines 65..77): `uint16(siz / 512)` plus one when the size is
not a multiple of 512 for platform `0xEF` (UEFI), constant 4 otherwise. -/
def sectorCountField (b : BootCatalogEntry) : Nat :=
  if b.platform = 0xef then
    (b.fileSize / 512 % U16 + (if b.fileSize % 512 = 0 then 0 else 1)) % U16
  else 4

/-- The 32-byte Initial/Default Entry or Section Entry written after each
header (bootcatalog.go lines 61..82). -/
def bootEntryBody (b : BootCatalogEntry) : List Nat :=
  [0x88, b.bootMedia, 0, 0] ++ [0, 0] ++ le16 (sectorCountField b)
    ++ le32 (b.targetSector % U32) ++ zeros 20

/-- The indexed loop of `encodeBootCatalogs` (bootcatalog.go lines 37..87):
entry 0 contributes the Validation Entry, later entries a Section Header
Entry, and every entry its 32-byte body. -/
def encodeBootCatalogsAux (cnt : Nat) : Nat → List BootCatalogEntry → List Nat
  | _, [] => []
  | i, b :: rest =>
    (if i = 0 then validationEntry b.platform
     else sectionHeaderEntry (decide (i = cnt - 1)) b.platform)
      ++ bootEntryBody b ++ encodeBootCatalogsAux cnt (i + 1) rest

/-- `encodeBootCatalogs` (bootcatalog.go lines 31..89). -/
def encodeBootCatalogs (e : List BootCatalogEntry) : List Nat :=
  encodeBootCatalogsAux e.length 0 e

/-- Go's built-in `copy(dst, src)`: overwrites the first
`min (len dst) (len src)` bytes of `dst` with those of `src`. -/
def goCopy (dst src : List Nat) : List Nat :=
  src.take (min dst.length src.length) ++ dst.drop (min dst.length src.length)

/-- The staged boot-catalog buffer after `WriteTo` back-patches it
(part_002 lines 456 and 514): a 2048-byte zero buffer overwritten by
`copy(bootCat, data)` with `data = encodeBootCatalogs(iw.boot)`. -/
def catalogBuffer (e : List BootCatalogEntry) : List Nat :=
  goCopy (zeros 2048) (encodeBootCatalogs e)

lemma checksumLoop_lt (b : List Nat) (v : Nat) (hv : v < U16) : checksumLoop b v < U16 := by
  induction b, v using checksumLoop.induct with
  | case1 b0 b1 rest v ih =>
    rw [checksumLoop]
    exact ih (Nat.mod_lt _ (by simp [U16]))
  | case2 b v h =>
    match b, h with
    | [], _ => simpa [checksumLoop] using hv
    | [b0], _ => simpa [checksumLoop] using hv
    | b0 :: b1 :: rest, h => exact (h b0 b1 rest rfl).elim

lemma checksumLoop_cancels (b : List Nat) (v : Nat) (hv : v < U16) :
    (sumWordsLE b + checksumLoop b v) % U16 = v := by
  induction b, v using checksumLoop.induct with
  | case1 b0 b1 rest v ih =>
    have h1 := ih (Nat.mod_lt _ (by simp [U16]))
    simp only [sumWordsLE, checksumLoop] at h1 ⊢
    simp only [show U16 = 65536 from rfl] at *
    omega
  | case2 b v h =>
    match b, h with
    | [], _ => simpa [sumWordsLE, checksumLoop] using Nat.mod_eq_of_lt hv
    | [b0], _ => simpa [sumWordsLE, checksumLoop] using Nat.mod_eq_of_lt hv
    | b0 :: b1 :: rest, h => exact (h b0 b1 rest rfl).elim

lemma validationEntry_sum (p : Nat) : sumWordsLE (validationEntry p) % U16 = 0 := by
  have hlt := checksumLoop_lt ([1, p, 0, 0] ++ zeros 24 ++ [0, 0] ++ [0x55, 0xaa]) 0
    (by simp [U16])
  have hc := checksumLoop_cancels ([1, p, 0, 0] ++ zeros 24 ++ [0, 0] ++ [0x55, 0xaa]) 0
    (by simp [U16])
  simp only [validationEntry, doBootCatalogChecksum, zeros, List.replicate] at hlt hc ⊢
  generalize checksumLoop
      [1, p, 0, 0, 0, 0, 0, 0, 0, 0, 0, 0, 0, 0, 0, 0, 0, 0,
       0, 0, 0, 0, 0, 0, 0, 0, 0, 0, 0, 0, 0x55, 0xaa] 0 = v at hlt hc ⊢
  simp only [List.take_succ_cons, List.take_zero, List.drop_succ_cons, List.drop_zero,
    List.cons_append, List.nil_append, sumWordsLE] at hc ⊢
  unfold U16 at hlt hc ⊢
  omega

lemma validationEntry_length (p : Nat) : (validationEntry p).length = 32 := by
  simp [validationEntry, doBootCatalogChecksum, zeros]

/-- C1: for every non-empty list of boot catalog entries, the 32-byte
Validation Entry produced by `encodeBootCatalogs` — with the 2-byte checksum
computed by `doBootCatalogChecksum` stored at offsets 28..30 — has the sum
of its sixteen 16-bit little-endian words congruent to 0 modulo 2^16. -/
theorem validation_entry_checksum_ok (e : List BootCatalogEntry) (h : e ≠ []) :
    sumWordsLE ((encodeBootCatalogs e).take 32) % U16 = 0 := by
  match e, h with
  | b :: rest, _ =>
    have hsplit : encodeBootCatalogs (b :: rest)
        = validationEntry b.platform
          ++ (bootEntryBody b ++ encodeBootCatalogsAux (rest.length + 1) 1 rest) := by
      simp [encodeBootCatalogs, encodeBootCatalogsAux, List.append_assoc]
    rw [hsplit, List.take_left' (validationEntry_length b.platform)]
    exact validationEntry_sum b.platform

/-- Witness for C1 at a concrete one-entry catalog. -/
theorem validation_entry_checksum_ok_witness :
    sumWordsLE ((encodeBootCatalogs [⟨0, 0, 0, 20⟩]).take 32) % U16 = 0 :=
  validation_entry_checksum_ok [⟨0, 0, 0, 20⟩] (by simp)

lemma sectionHeaderEntry_length (b : Bool) (p : Nat) : (sectionHeaderEntry b p).length = 32 := by
  simp [sectionHeaderEntry, zeros]

lemma bootEntryBody_length (b : BootCatalogEntry) : (bootEntryBody b).length = 32 := by
  simp [bootEntryBody, le16, le32, zeros]

lemma encodeBootCatalogsAux_length (e : List BootCatalogEntry) (cnt i : Nat) :
    (encodeBootCatalogsAux cnt i e).length = 64 * e.length := by
  induction e generalizing i with
  | nil => simp [encodeBootCatalogsAux]
  | cons b rest ih =>
    simp only [encodeBootCatalogsAux, List.length_append, ih, List.length_cons,
      bootEntryBody_length]
    by_cases h : i = 0 <;>
      simp [h, validationEntry_length, sectionHeaderEntry_length] <;> ring

/-- C10: `encodeBootCatalogs` returns exactly 64 bytes per catalog entry
(validation + default entry for the first, section header + section entry
for each later one), and when that exceeds the fixed 2048-byte catalog
buffer `WriteTo` copies into, the surplus bytes are silently dropped: the
staged catalog sector is just the first 2048 output bytes. -/
theorem encode_boot_catalogs_length (e : List BootCatalogEntry) (h : 1 ≤ e.length) :
    (encodeBootCatalogs e).length = 64 * e.length ∧
      (2048 ≤ 64 * e.length → catalogBuffer e = (encodeBootCatalogs e).take 2048) := by
  have hlen : (encodeBootCatalogs e).length = 64 * e.length :=
    encodeBootCatalogsAux_length e e.length 0
  refine ⟨hlen, fun hbig => ?_⟩
  have hzl : (zeros 2048).length = 2048 := by rw [zeros, List.length_replicate]
  have hmin : min (zeros 2048).length (encodeBootCatalogs e).length = 2048 := by
    rw [hzl, hlen]
    omega
  have hdrop : (zeros 2048).drop 2048 = [] := List.drop_eq_nil_of_le (by rw [hzl])
  rw [catalogBuffer, goCopy, hmin, hdrop, List.append_nil]

/-- Witness for C10 at a concrete 33-entry catalog (64 × 33 = 2112 > 2048). -/
theorem encode_boot_catalogs_length_witness :
    (encodeBootCatalogs (List.replicate 33 ⟨0, 0, 0, 20⟩)).length
        = 64 * (List.replicate 33 (⟨0, 0, 0, 20⟩ : BootCatalogEntry)).length ∧
      (2048 ≤ 64 * (List.replicate 33 (⟨0, 0, 0, 20⟩ : BootCatalogEntry)).length →
        catalogBuffer (List.replicate 33 ⟨0, 0, 0, 20⟩)
          = (encodeBootCatalogs (List.replicate 33 ⟨0, 0, 0, 20⟩)).take 2048) :=
  encode_boot_catalogs_length (List.replicate 33 ⟨0, 0, 0, 20⟩) (by simp)

/-! Identifier mangling (mangle.go).  Go strings are byte slices; all the
identifiers produced here are ASCII, so we model strings as `List Char`
and Go's `strings.ToUpper` by its ASCII action (on non-ASCII input Go maps
runes outside the d-character set to other runes outside it, which
`mangleDString` then replaces by an underscore just the same). -/

/-- ECMA-119 identifier length caps (image_writer.go lines 19..21). -/
def primaryVolumeDirectoryIdentifierMaxLength : Nat := 31

/-- See `primaryVolumeDirectoryIdentifierMaxLength`. -/
def primaryVolumeFileIdentifierMaxLength : Nat := 30

/-- Modelled from the spec: the constant `dCharacters` (the ECMA-119
d-character set: letters A..Z, digits, underscore — spec §4.D and glossary)
is declared in a source file that is not part of the provided sources. -/
def dCharacters : List Char := "ABCDEFGHIJKLMNOPQRSTUVWXYZ0123456789_".toList

/-- ASCII action of Go's `strings.ToUpper`, applied rune-wise. -/
def upperChar (c : Char) : Char :=
  if 'a' ≤ c ∧ c ≤ 'z' then Char.ofNat (c.toNat - 32) else c

/-- One step of the `mangleDString` loop body: keep d-characters, replace
anything else by an underscore (mangle.go lines 74..79). -/
def keepDChar (c : Char) : Char := if dCharacters.contains c then c else '_'

/-- The `mangleDString` loop (mangle.go lines 73..80): runs while both
`i < len(input)` and `i < maxCharacters`. -/
def mangleDStringLoop : List Char → Nat → List Char
  | _, 0 => []
  | [], _ => []
  | c :: rest, n + 1 => keepDChar c :: mangleDStringLoop rest n

/-- `mangleDString` (mangle.go lines 69..83): upper-case the input, then
filter/truncate. -/
def mangleDString (input : List Char) (maxCharacters : Nat) : List Char :=
  mangleDStringLoop (input.map upperChar) maxCharacters

/-- `mangleDirectoryName` (mangle.go lines 65..67). -/
def mangleDirectoryName (input : List Char) : List Char :=
  mangleDString input primaryVolumeDirectoryIdentifierMaxLength

/-- Split on a separator character, keeping empty segments — Go's
`strings.Split(s, sep)` for a one-byte separator. -/
def splitCharAux (sep : Char) : List Char → List Char → List (List Char)
  | [], acc => [acc.reverse]
  | c :: rest, acc =>
    if c = sep then acc.reverse :: splitCharAux sep rest []
    else splitCharAux sep rest (c :: acc)

/-- See `splitCharAux`. -/
def splitChar (sep : Char) (l : List Char) : List (List Char) := splitCharAux sep l []

/-- `mangleFileName` (mangle.go lines 34..62): upper-case, split on dots,
collapse internal dots of the stem to underscores, mangle stem and
extension under the 30-character total budget, append the `;1` version. -/
def mangleFileName (input : List Char) : List Char :=
  let up := input.map upperChar
  let split := splitChar '.' up
  let version := ['1']
  let filename := if split.length = 1 then split.headD []
    else List.intercalate ['_'] split.dropLast
  let extension0 := if split.length = 1 then ([] : List Char) else split.getLastD []
  let extension := mangleDString extension0 8
  let maxRemainingFilenameLength :=
    primaryVolumeFileIdentifierMaxLength - (1 + version.length)
      - (if extension.length > 0 then 1 + extension.length else 0)
  let filename := mangleDString filename maxRemainingFilenameLength
  if extension.length > 0 then filename ++ '.' :: extension ++ ';' :: version
  else filename ++ ';' :: version

lemma mangleDStringLoop_mem (l : List Char) (n : Nat) (c : Char)
    (hc : c ∈ mangleDStringLoop l n) : c ∈ dCharacters := by
  induction l generalizing n with
  | nil => cases n <;> simp [mangleDStringLoop] at hc
  | cons a rest ih =>
    cases n with
    | zero => simp [mangleDStringLoop] at hc
    | succ m =>
      simp only [mangleDStringLoop, List.mem_cons] at hc
      rcases hc with hc | hc
      · subst hc
        rw [keepDChar]
        by_cases h : a ∈ dCharacters
        · simpa [List.contains, List.elem_iff, h] using h
        · simp only [List.contains, List.elem_iff]
          simp [h]
          decide
      · exact ih m hc

lemma mangleDStringLoop_length (l : List Char) (n : Nat) :
    (mangleDStringLoop l n).length ≤ n := by
  induction l generalizing n with
  | nil => cases n <;> simp [mangleDStringLoop]
  | cons a rest ih =>
    cases n with
    | zero => simp [mangleDStringLoop]
    | succ m => simpa [mangleDStringLoop] using ih m

lemma upperChar_fixed_all : ∀ c ∈ dCharacters, upperChar c = c := by decide

lemma upperChar_fixed (c : Char) (hc : c ∈ dCharacters) : upperChar c = c :=
  upperChar_fixed_all c hc

lemma keepDChar_fixed (c : Char) (hc : c ∈ dCharacters) : keepDChar c = c := by
  rw [keepDChar, if_pos (by simpa [List.contains, List.elem_iff] using hc)]

lemma mangleDStringLoop_fixed (l : List Char) (n : Nat) (hlen : l.length ≤ n)
    (hmem : ∀ c ∈ l, c ∈ dCharacters) : mangleDStringLoop l n = l := by
  induction l generalizing n with
  | nil => cases n <;> simp [mangleDStringLoop]
  | cons a rest ih =>
    cases n with
    | zero => simp at hlen
    | succ m =>
      rw [mangleDStringLoop, keepDChar_fixed a (hmem a (by simp))]
      rw [ih m (by simpa using hlen) (fun c hc => hmem c (by simp [hc]))]

lemma mangleDString_idem (x : List Char) (n : Nat) :
    mangleDString (mangleDString x n) n = mangleDString x n := by
  rw [mangleDString, mangleDString]
  have hmem : ∀ c ∈ mangleDStringLoop (x.map upperChar) n, c ∈ dCharacters :=
    fun c hc => mangleDStringLoop_mem _ n c hc
  have hmap : (mangleDStringLoop (x.map upperChar) n).map upperChar
      = mangleDStringLoop (x.map upperChar) n := by
    rw [List.map_congr_left fun c hc => upperChar_fixed c (hmem c hc)]
    exact List.map_id' _
  rw [hmap]
  exact mangleDStringLoop_fixed _ n (mangleDStringLoop_length _ n) hmem

/-- Counterexample for C4 as stated: `mangleFileName` is not idempotent,
because the appended `;1` version suffix is fed back through the
d-character filter, which turns the semicolon into an underscore. -/
theorem mangle_file_name_not_idempotent :
    mangleFileName (mangleFileName ['A']) ≠ mangleFileName ['A'] := by
  decide

/-- C4 amended: `mangleDirectoryName` is idempotent on every input, but
`mangleFileName` is not — re-mangling its output replaces the semicolon of
the `;1` suffix with an underscore (`A` becomes `A;1` which becomes
`A_1;1`). -/
theorem mangle_directory_idem_file_not :
    (∀ x : List Char, mangleDirectoryName (mangleDirectoryName x) = mangleDirectoryName x) ∧
      mangleFileName (mangleFileName ['A']) ≠ mangleFileName ['A'] := by
  constructor
  · intro x
    exact mangleDString_idem x primaryVolumeDirectoryIdentifierMaxLength
  · decide

/-! Directory extents and the staged tree (part_002 and the itemDir
chunk).  A directory's children form a Go map from mangled (ASCII) name to
item; the map is modelled as an association list whose order stands for
Go's arbitrary map iteration order.  Go's byte-wise string comparison is
modelled by the lexicographic order on `List Char`, which agrees with it
on ASCII. -/

/-- A staged item: a file with its byte size, or a directory with its
children (name/item association list standing for the Go map). -/
inductive FSItem where
  | file (size : Nat)
  | dir (children : List (List Char × FSItem))

/-- Modelled from the spec: the serialized length of a directory record
with an identifier of `identLen` bytes is `33 + identLen` plus one padding
byte when that is odd (spec §3); `DirectoryEntry.MarshalBinary` is declared
in a source file that is not part of the provided sources.  The same
formula appears as `entryLength` inside `itemDir.sectors`. -/
def dirEntryLen (identLen : Nat) : Nat := 33 + identLen + (identLen + 1) % 2

/-- The loop of `itemDir.sectors` (dir.go lines 19..41): `occupied` starts
at 68 (the 0x00 and 0x01 records) and a record that would cross the
2048-byte boundary opens a new sector. -/
def dirSectorsLoop : List Nat → Nat → Nat → Nat
  | [], sectors, occupied => if occupied > 0 then sectors + 1 else sectors
  | n :: rest, sectors, occupied =>
    let entryLength := dirEntryLen n
    if occupied + entryLength > sectorSize then dirSectorsLoop rest (sectors + 1) entryLength
    else dirSectorsLoop rest sectors (occupied + entryLength)

/-- `itemDir.sectors` applied to the identifier lengths of the children, in
map-iteration order. -/
def dirSectors (identLens : List Nat) : Nat := dirSectorsLoop identLens 0 68

/-- The `sectors()` method shared by all file handlers (item.go):
`size/2048`, plus one when the size is not a multiple of 2048. -/
def fileSectors (size : Nat) : Nat :=
  if size % sectorSize = 0 then size / sectorSize else size / sectorSize + 1

/-- Identifier lengths of a directory's children in map-iteration order. -/
def childLens (cs : List (List Char × FSItem)) : List Nat := cs.map fun c => c.1.length

/-- `sectors()` of a staged item. -/
def itemSectors : FSItem → Nat
  | .file s => fileSectors s
  | .dir cs => dirSectors (childLens cs)

/-- The `sort.Slice(names, ...)` call of `processDirectory` (part_002 lines
270..274): children sorted by name. -/
def sortChildren (cs : List (List Char × FSItem)) : List (List Char × FSItem) :=
  List.insertionSort (fun a b => a.1 ≤ b.1) cs

/-- One child record as it lands in the directory-extent buffer: its stored
identifier, its byte offset from the start of the extent, and its
serialized length. -/
structure DirRecord where
  ident : List Char
  start : Nat
  recLen : Nat

/-- The child loop of `processDirectory` (part_002 lines 276..338),
restricted to the buffer geometry: `bufPos` is the source's running
counter, `bufLen` the actual number of bytes in `dir.buf`.  Lines 325..332
pad to the sector boundary and reset `bufPos` when `bufPos + len(data)`
overshoots; the write of `data` itself (line 334) grows the buffer but —
exactly as in the source, which drops the returned count there — never
advances `bufPos`. -/
def processChildrenLoop : List (List Char) → Nat → Nat → List DirRecord × Nat
  | [], _, bufLen => ([], bufLen)
  | name :: rest, bufPos, bufLen =>
    let data := dirEntryLen name.length
    if bufPos + data > sectorSize then
      let bufLenPad := if bufPos < sectorSize then bufLen + (sectorSize - bufPos) else bufLen
      let r := processChildrenLoop rest 0 (bufLenPad + data)
      (⟨name, bufLenPad, data⟩ :: r.1, r.2)
    else
      let r := processChildrenLoop rest bufPos (bufLen + data)
      (⟨name, bufLen, data⟩ :: r.1, r.2)

/-- `processDirectory` (part_002 lines 239..344) as seen by the buffer
geometry: after the self and parent records (34 bytes each, `bufPos = 68`)
the sorted children are appended; returns the child records and the final
buffer length. -/
def processDirectory (cs : List (List Char × FSItem)) : List DirRecord × Nat :=
  processChildrenLoop ((sortChildren cs).map Prod.fst) 68 68

/-- A record straddles a sector boundary when its first and last bytes lie
in different 2048-byte sectors. -/
def straddles (r : DirRecord) : Bool :=
  r.start / sectorSize != (r.start + r.recLen - 1) / sectorSize

/-- Bytes that reach the sink for one item under `writeSectorBuf` (part_002
lines 418..434): the item's content (`io.Copy` returns its full length)
plus zero padding to the next sector boundary. -/
def bytesWrittenFor (contentLen : Nat) : Nat :=
  contentLen + (if contentLen % sectorSize = 0 then 0 else sectorSize - contentLen % sectorSize)

/-- Upper-case letter number `n` (0 ↦ A). -/
def letter (n : Nat) : Char := Char.ofNat (65 + n)

/-- A 30-character identifier (record length 64): 28 `A`s and a two-letter
index. -/
def name30 (i : Nat) : List Char := List.replicate 28 'A' ++ [letter (i / 10), letter (i % 10)]

/-- A 29-character identifier (record length 62): 27 `B`s and a two-letter
index. -/
def name29 (i : Nat) : List Char := List.replicate 27 'B' ++ [letter (i / 10), letter (i % 10)]

/-- Failing input for C2: a directory with 31 children whose records are 64
bytes each.  The 31st record starts at byte offset 68 + 30·64 = 1988 and
ends at 2052, crossing the 2048-byte boundary, because the source never
advances `bufPos` past 68. -/
def c2Children : List (List Char × FSItem) :=
  (List.range 31).map fun i => (name30 i, FSItem.file 1)

/-- C2 evaluated on the failing input: `processDirectory` materializes a
child record that straddles a 2048-byte sector boundary, contradicting the
claim (the padding branch is dead because `bufPos` is never advanced by the
record writes). -/
theorem process_directory_straddling_record :
    (processDirectory c2Children).1.any straddles = true := by decide

/-- Failing input for C3: 30 records of 64 bytes, then 33 of 62 bytes,
then one of 34 bytes.  `itemDir.sectors` (which anticipates boundary
padding) reports 3 sectors, but the materialized buffer is only
68 + 30·64 + 33·62 + 34 = 4068 bytes, which `writeSectorBuf` pads to 4096
bytes = 2 sectors. -/
def c3Children : List (List Char × FSItem) :=
  ((List.range 30).map fun i => (name30 i, FSItem.file 1))
    ++ ((List.range 33).map fun i => (name29 i, FSItem.file 1))
    ++ [(['C'], FSItem.file 1)]

/-- C3 evaluated on the failing input: the bytes emitted for the directory
extent (payload plus trailing zero padding) differ from
`sectors() × 2048`. -/
theorem bytes_written_ne_sectors :
    bytesWrittenFor (processDirectory c3Children).2
      ≠ itemSectors (FSItem.dir c3Children) * sectorSize := by decide

lemma processChildrenLoop_idents (names : List (List Char)) (bufPos bufLen : Nat) :
    (processChildrenLoop names bufPos bufLen).1.map DirRecord.ident = names := by
  induction names generalizing bufPos bufLen with
  | nil => rfl
  | cons n rest ih =>
    rw [processChildrenLoop]
    by_cases h : bufPos + dirEntryLen n.length > sectorSize <;> simp [h, ih]

/-- C9: within every materialized directory extent the child records appear
in strictly ascending lexicographic order of their stored identifiers,
whatever the staging (map) order, provided the children names are distinct
(they are: they are keys of one Go map). -/
theorem directory_records_sorted (cs : List (List Char × FSItem))
    (h : (cs.map Prod.fst).Nodup) :
    List.Sorted (· < ·) ((processDirectory cs).1.map DirRecord.ident) := by
  rw [processDirectory, processChildrenLoop_idents]
  haveI htot : IsTotal (List Char × FSItem) fun a b => a.1 ≤ b.1 :=
    ⟨fun a b => le_total a.1 b.1⟩
  haveI htr : IsTrans (List Char × FSItem) fun a b => a.1 ≤ b.1 :=
    ⟨fun _ _ _ h1 h2 => le_trans h1 h2⟩
  have hsorted := List.sorted_insertionSort (fun a b : List Char × FSItem => a.1 ≤ b.1) cs
  have hle : List.Sorted (· ≤ ·) ((sortChildren cs).map Prod.fst) := by
    rw [List.Sorted, List.pairwise_map]
    exact hsorted
  have hperm : List.Perm ((sortChildren cs).map Prod.fst) (cs.map Prod.fst) :=
    (List.perm_insertionSort _ cs).map Prod.fst
  exact hle.lt_of_le (hperm.nodup_iff.mpr h)

/-- Witness for C9: two children staged in reverse order come out in
ascending identifier order. -/
theorem directory_records_sorted_witness :
    ((([['B'], ['A']].map fun n => (n, FSItem.file 1)).map Prod.fst).Nodup) ∧
      List.Sorted (· < ·)
        ((processDirectory ([['B'], ['A']].map fun n => (n, FSItem.file 1))).1.map
          DirRecord.ident) :=
  ⟨by decide, directory_records_sorted _ (by decide)⟩

/-! Layout planning: LBA allocation (part_002 lines 201..389) and the
volume space size (part_002 lines 185..199 and 494). -/

mutual

/-- Termination measure: one unit per staged item. -/
def itemWeight : FSItem → Nat
  | .file _ => 1
  | .dir cs => 1 + childWeight cs

/-- See `itemWeight`. -/
def childWeight : List (List Char × FSItem) → Nat
  | [] => 0
  | c :: rest => itemWeight c.2 + childWeight rest

end

lemma childWeight_eq (cs : List (List Char × FSItem)) :
    childWeight cs = (cs.map fun c => itemWeight c.2).sum := by
  induction cs with
  | nil => rfl
  | cons c rest ih => rw [childWeight, ih, List.map_cons, List.sum_cons]

lemma sortChildren_weight (cs : List (List Char × FSItem)) :
    ((sortChildren cs).map fun c => itemWeight c.2).sum
      = (cs.map fun c => itemWeight c.2).sum :=
  ((List.perm_insertionSort _ cs).map fun c => itemWeight c.2).sum_eq

/-- The allocation events of `processAll`'s queue loop (part_002 lines
372..386), with an explicit iteration budget: the FIFO starts with the
root; dequeuing a directory runs `processDirectory`, which allocates
`sectors()` for each child in sorted order (line 301) and enqueues the
children (line 318); dequeuing a file allocates nothing.  Each event is
the `count` passed to `allocSectors`.  Every iteration removes one item
net, so the loop runs exactly `(q.map itemWeight).sum` times — the budget
`allocQueue` supplies; `allocQueueLoop_fuel` shows any larger budget gives
the same trace. -/
def allocQueueLoop : Nat → List FSItem → List Nat
  | 0, _ => []
  | _ + 1, [] => []
  | fuel + 1, .file _ :: rest => allocQueueLoop fuel rest
  | fuel + 1, .dir cs :: rest =>
    ((sortChildren cs).map fun c => itemSectors c.2)
      ++ allocQueueLoop fuel (rest ++ (sortChildren cs).map Prod.snd)

/-- See `allocQueueLoop`. -/
def allocQueue (q : List FSItem) : List Nat := allocQueueLoop ((q.map itemWeight).sum) q

lemma allocQueueLoop_fuel (fuel fuel2 : Nat) (q : List FSItem)
    (h1 : (q.map itemWeight).sum ≤ fuel) (h2 : (q.map itemWeight).sum ≤ fuel2) :
    allocQueueLoop fuel q = allocQueueLoop fuel2 q := by
  induction fuel generalizing fuel2 q with
  | zero =>
    match q, h1 with
    | [], _ =>
      cases fuel2 with
      | zero => rfl
      | succ f2 => rfl
    | t :: rest, h1 =>
      exfalso
      cases t <;> simp [itemWeight] at h1 <;> omega
  | succ f ih =>
    match q with
    | [] =>
      cases fuel2 with
      | zero => rfl
      | succ f2 => rfl
    | FSItem.file s :: rest =>
      have hw : (rest.map itemWeight).sum + 1 = ((FSItem.file s :: rest).map itemWeight).sum := by
        simp [itemWeight]
        omega
      cases fuel2 with
      | zero => omega
      | succ f2 =>
        rw [allocQueueLoop, allocQueueLoop]
        exact ih f2 rest (by omega) (by omega)
    | FSItem.dir cs :: rest =>
      have hw : ((rest ++ (sortChildren cs).map Prod.snd).map itemWeight).sum + 1
          = ((FSItem.dir cs :: rest).map itemWeight).sum := by
        simp only [List.map_cons, List.sum_cons, List.map_append, List.sum_append,
          itemWeight, List.map_map]
        have hs : (((sortChildren cs).map Prod.snd).map itemWeight).sum
            = (cs.map fun c => itemWeight c.2).sum := by
          rw [List.map_map]
          exact sortChildren_weight cs
        rw [List.map_map] at hs
        rw [hs, ← childWeight_eq]
        omega
      cases fuel2 with
      | zero => omega
      | succ f2 =>
        rw [allocQueueLoop, allocQueueLoop]
        rw [ih f2 (rest ++ (sortChildren cs).map Prod.snd) (by omega) (by omega)]

/-- The full allocation-event list of one emission: `createDEForRoot`
allocates the root extent first (part_002 lines 220..237), then the queue
loop runs. -/
def allocCounts (root : List (List Char × FSItem)) : List Nat :=
  dirSectors (childLens root) :: allocQueue [FSItem.dir root]

/-- `allocSectors` (part_002 lines 212..218) iterated over a list of
requested counts: each call returns the `uint32` cursor and advances it by
`count` with wrap-around. -/
def allocLBAs (cursor : Nat) : List Nat → List Nat
  | [] => []
  | c :: rest => cursor :: allocLBAs ((cursor + c) % U32) rest

/-- The LBAs assigned during one emission, in allocation order: the cursor
starts at `uint32(16 + len(vd))` (part_002 line 487). -/
def allocTraceLBAs (root : List (List Char × FSItem)) (numDescriptors : Nat) : List Nat :=
  allocLBAs ((16 + numDescriptors) % U32) (allocCounts root)

lemma allocLBAs_getElem (counts : List Nat) (cursor i : Nat) (hc : cursor < U32)
    (hi : i < counts.length) :
    (allocLBAs cursor counts)[i]? = some ((cursor + (counts.take i).sum) % U32) := by
  induction counts generalizing cursor i with
  | nil => simp at hi
  | cons c rest ih =>
    cases i with
    | zero => simpa [allocLBAs] using (Nat.mod_eq_of_lt hc).symm
    | succ j =>
      rw [allocLBAs]
      have hlt : (cursor + c) % U32 < U32 := Nat.mod_lt _ (by simp [U32])
      rw [List.getElem?_cons_succ, ih ((cursor + c) % U32) j hlt (by simpa using hi)]
      rw [List.take_succ_cons, List.sum_cons, Nat.mod_add_mod, Nat.add_assoc]

/-- C5: during a single emission LBA allocation is gapless — the cursor
starts at `16 + D` (`D` = number of volume descriptors) and the `i`-th
allocated item's LBA is `16 + D` plus the sum of `sectors()` of all items
allocated before it (stated below any `uint32` wrap-around, which cannot
occur for a representable image). -/
theorem alloc_lba_running_sum (root : List (List Char × FSItem)) (D i : Nat)
    (hi : i < (allocCounts root).length)
    (hof : 16 + D + (((allocCounts root).take i).sum) < U32) :
    (allocTraceLBAs root D)[i]? = some (16 + D + ((allocCounts root).take i).sum) := by
  have hstart : (16 + D) % U32 < U32 := Nat.mod_lt _ (by simp [U32])
  rw [allocTraceLBAs, allocLBAs_getElem _ _ i hstart hi, Nat.mod_add_mod]
  rw [Nat.mod_eq_of_lt hof]

/-- Concrete staged tree for the allocation witnesses: a file and a
subdirectory holding a 5000-byte file. -/
def demoRoot : List (List Char × FSItem) :=
  [(['A'], FSItem.file 1), (['B'], FSItem.dir [(['C'], FSItem.file 5000)])]

/-- Witness for C5: in `demoRoot` with three volume descriptors, the third
allocation (the subdirectory's file) lands at LBA 16 + 3 + 2. -/
theorem alloc_lba_running_sum_witness :
    2 < (allocCounts demoRoot).length ∧
      16 + 3 + (((allocCounts demoRoot).take 2).sum) < U32 ∧
      (allocTraceLBAs demoRoot 3)[2]? = some (16 + 3 + ((allocCounts demoRoot).take 2).sum) :=
  ⟨by decide, by decide, alloc_lba_running_sum demoRoot 3 2 (by decide) (by decide)⟩

mutual

/-- The contribution of one item to `recursiveDirSectorCount` (part_002
lines 185..199): for a sub-directory the recursive call
`recursiveDirSectorCount(v)` — its own `sectors()` plus its children's
contributions — and for anything else `v.sectors()`. -/
def itemTotalSectors : FSItem → Nat
  | .file s => fileSectors s
  | .dir cs => dirSectors (childLens cs) + recursiveSubCount cs

/-- The `for _, sub := range dir.children` loop of
`recursiveDirSectorCount`. -/
def recursiveSubCount : List (List Char × FSItem) → Nat
  | [] => 0
  | c :: rest => itemTotalSectors c.2 + recursiveSubCount rest

end

/-- `recursiveDirSectorCount` (part_002 lines 185..199): the directory's
own extent (`dir.sectors()`) plus the loop over its children. -/
def recursiveDirSectorCount (cs : List (List Char × FSItem)) : Nat :=
  dirSectors (childLens cs) + recursiveSubCount cs

mutual

/-- Spec-side inventory: every staged item below (and including) a given
item — each directory extent and each file once. -/
def allItems : FSItem → List FSItem
  | .file s => [.file s]
  | .dir cs => .dir cs :: allItemsChildren cs

/-- See `allItems`. -/
def allItemsChildren : List (List Char × FSItem) → List FSItem
  | [] => []
  | c :: rest => allItems c.2 ++ allItemsChildren rest

end

/-- Spec-side reading of "Σ item.sectors() over all staged items". -/
def sumItemSectors (t : FSItem) : Nat := ((allItems t).map itemSectors).sum

/-- `iw.Primary.VolumeSpaceSize` as computed by `WriteTo` (part_002 line
494): `16 + len(vd) + recursiveDirSectorCount(root)` in `uint32`
arithmetic (the `int32` store keeps the same 32 bits). -/
def volumeSpaceSize (root : List (List Char × FSItem)) (numDescriptors : Nat) : Nat :=
  (16 + numDescriptors + recursiveDirSectorCount root) % U32

lemma itemTotalSectors_eq (t : FSItem) :
    itemTotalSectors t = ((allItems t).map itemSectors).sum := by
  refine itemTotalSectors.induct
    (fun t => itemTotalSectors t = ((allItems t).map itemSectors).sum)
    (fun cs => recursiveSubCount cs = ((allItemsChildren cs).map itemSectors).sum)
    ?_ ?_ ?_ ?_ t
  · intro s
    simp [itemTotalSectors, allItems, itemSectors]
  · intro cs ih
    rw [itemTotalSectors, allItems, List.map_cons, List.sum_cons, ih, itemSectors]
  · simp [recursiveSubCount, allItemsChildren]
  · intro c rest ih1 ih2
    rw [recursiveSubCount, allItemsChildren, ih1, ih2, List.map_append, List.sum_append]

lemma recursiveDirSectorCount_eq (cs : List (List Char × FSItem)) :
    recursiveDirSectorCount cs = sumItemSectors (FSItem.dir cs) := by
  have h := itemTotalSectors_eq (FSItem.dir cs)
  rw [itemTotalSectors] at h
  rw [recursiveDirSectorCount, h, sumItemSectors]

/-- C6: the `VolumeSpaceSize` written into the primary volume descriptor is
`16 + D` plus the sum of `sectors()` over all staged items (every directory
extent and every staged file — when boot entries exist the staged catalog
file is part of the tree by that point), for any image small enough that
the 32-bit field does not wrap. -/
theorem volume_space_size_eq (root : List (List Char × FSItem)) (D : Nat)
    (h : 16 + D + sumItemSectors (FSItem.dir root) < U32) :
    volumeSpaceSize root D = 16 + D + sumItemSectors (FSItem.dir root) := by
  rw [volumeSpaceSize, recursiveDirSectorCount_eq]
  exact Nat.mod_eq_of_lt h

/-- Witness for C6 on `demoRoot` with three volume descriptors. -/
theorem volume_space_size_eq_witness :
    16 + 3 + sumItemSectors (FSItem.dir demoRoot) < U32 ∧
      volumeSpaceSize demoRoot 3 = 16 + 3 + sumItemSectors (FSItem.dir demoRoot) :=
  ⟨by decide, volume_space_size_eq demoRoot 3 (by decide)⟩

/-! The stream emitter (part_002 lines 391..415) and the boot-catalog
lookup of `WriteTo` (part_002 lines 444..515). -/

/-- The emitter state: the `writeSecPos` sector counter and the bytes
pushed to the sink so far. -/
structure SinkState where
  writeSecPos : Nat
  out : List Nat

/-- `writeSector` (part_002 lines 394..415): rejects a declared sector that
differs from `writeSecPos` with the invalid-write error (`none`); otherwise
writes the buffer, pads with zeroes to the sector boundary when the length
is not a multiple of 2048, and advances `writeSecPos` (a `uint32`) by the
number of sectors written. -/
def writeSector (st : SinkState) (buffer : List Nat) (sector : Nat) : Option SinkState :=
  if sector ≠ st.writeSecPos then none
  else
    let secBytes := buffer.length % sectorSize
    let secCnt := buffer.length / sectorSize + (if secBytes = 0 then 0 else 1)
    let extra := if secBytes = 0 then 0 else sectorSize - secBytes
    some ⟨(st.writeSecPos + secCnt) % U32, st.out ++ buffer ++ zeros extra⟩

/-- C8: `writeSector` fails with the invalid-write error exactly when the
declared sector differs from the running `writeSecPos` counter (the sink
itself cannot fail in this model); on success it appends the buffer plus
zero padding to the next 2048-byte boundary and advances `writeSecPos` by
⌈len(buffer)/2048⌉ sectors. -/
theorem write_sector_spec (st : SinkState) (buffer : List Nat) (sector : Nat) :
    (writeSector st buffer sector = none ↔ sector ≠ st.writeSecPos) ∧
      (sector = st.writeSecPos →
        writeSector st buffer sector =
          some ⟨(st.writeSecPos + (buffer.length + sectorSize - 1) / sectorSize) % U32,
            st.out ++ buffer ++ zeros ((sectorSize - buffer.length % sectorSize) % sectorSize)⟩) := by
  constructor
  · rw [writeSector]
    by_cases h : sector = st.writeSecPos <;> simp [h]
  · intro h
    rw [writeSector, if_neg (by simp [h])]
    have h1 : buffer.length / sectorSize + (if buffer.length % sectorSize = 0 then 0 else 1)
        = (buffer.length + sectorSize - 1) / sectorSize := by
      rw [show sectorSize = 2048 from rfl]
      by_cases hb : buffer.length % 2048 = 0 <;> simp [hb] <;> omega
    have h2 : (if buffer.length % sectorSize = 0 then 0 else sectorSize - buffer.length % sectorSize)
        = (sectorSize - buffer.length % sectorSize) % sectorSize := by
      rw [show sectorSize = 2048 from rfl]
      by_cases hb : buffer.length % 2048 = 0 <;> simp [hb] <;> omega
    dsimp only
    rw [h1, h2]

/-- Witness for C8: at the correct position a 3-byte buffer is padded to a
full sector and the counter advances by one. -/
theorem write_sector_spec_witness :
    (writeSector ⟨5, []⟩ [1, 2, 3] 5 = none ↔ (5 : Nat) ≠ 5) ∧
      ((5 : Nat) = 5 →
        writeSector ⟨5, []⟩ [1, 2, 3] 5 =
          some ⟨(5 + (([1, 2, 3] : List Nat).length + sectorSize - 1) / sectorSize) % U32,
            [] ++ [1, 2, 3]
              ++ zeros ((sectorSize - ([1, 2, 3] : List Nat).length % sectorSize) % sectorSize)⟩) :=
  write_sector_spec ⟨5, []⟩ [1, 2, 3] 5

/-- The default boot-catalog path, `iw.Catalog = "BOOT.CAT"` (part_002 line
78). -/
def bootCatalogDefaultPath : List Char := ['B', 'O', 'O', 'T', '.', 'C', 'A', 'T']

/-- The `lookupTable` key under which `WriteTo` stages the boot catalog:
`AddFile(... , iw.Catalog)` (part_002 line 459) mangles the path — for the
slash-free default `path.Clean` is the identity, `splitPath` yields one
segment, and `manglePath` returns directory `""` and
`mangleFileName(segment)` — and registers the item under
`path.Join("", name) = name` (part_002 lines 148..169). -/
def stagedCatalogKey (catalog : List Char) : List Char := mangleFileName catalog

/-- C7 evaluated on the failing input: `WriteTo` (part_002 line 504) reads
`lookupTable[iw.Catalog]` under the raw path `BOOT.CAT`, but the catalog
was registered under the mangled key `BOOT.CAT;1`, so the lookup misses
(and the subsequent `bootCatInfo.meta()` dereferences a nil interface):
`BootSystemUse` is never populated from the catalog's LBA. -/
theorem boot_catalog_lookup_mismatch :
    stagedCatalogKey bootCatalogDefaultPath ≠ bootCatalogDefaultPath ∧
      List.lookup bootCatalogDefaultPath
        [(stagedCatalogKey bootCatalogDefaultPath, 0)] = (none : Option Nat) := by
  decide

end Iso9660
